import Mathlib

/-!
Verification of the core logic of the release-automation script
`bump_version.py`: the version tuple with its bump/reset semantics, the
anchored manifest substitution driven by `VER_PATTERN` and `re.sub`, the
changelog note extractor `get_release_notes`, and the sequential release
pipeline in `main`.  Text is modelled as `List Char`; the regular
expressions of the script are small and deterministic on their anchored
alphabet, so they are embedded as explicit recursive matchers.
-/

/-- A parsed manifest version: the four regex capture groups of
`VER_PATTERN` converted to numbers, in priority order
`major, minor, patch, rc` (the `COMPONENTS` tuple of the script). -/
structure VersionSpec where
  major : Nat
  minor : Nat
  patch : Nat
  rc : Nat
deriving DecidableEq

/-- Component of a `VersionSpec` at a priority position, `0 = major`,
`1 = minor`, `2 = patch`, `3 = rc`. -/
def VersionSpec.comp (v : VersionSpec) (index : Fin 4) : Nat :=
  if index = 0 then v.major
  else if index = 1 then v.minor
  else if index = 2 then v.patch
  else v.rc

/-- The bump performed by `Updater.replace`: `ver[index] += 1` followed by
`ver[i] = 0` for every `i` in `range(index + 1, len(COMPONENTS))`. -/
def VersionSpec.bump (v : VersionSpec) (index : Fin 4) : VersionSpec :=
  if index = 0 then ⟨v.major + 1, 0, 0, 0⟩
  else if index = 1 then ⟨v.major, v.minor + 1, 0, 0⟩
  else if index = 2 then ⟨v.major, v.minor, v.patch + 1, 0⟩
  else ⟨v.major, v.minor, v.patch, v.rc + 1⟩

/-- Decimal rendering of a natural number, most significant digit first
(Python `str` on a non-negative `int`); `fuel` bounds the recursion depth. -/
def toDecimalAux : Nat → Nat → List Char → List Char
  | 0, _, acc => acc
  | fuel + 1, n, acc =>
    if n < 10 then Char.ofNat (48 + n % 10) :: acc
    else toDecimalAux fuel (n / 10) (Char.ofNat (48 + n % 10) :: acc)

/-- Decimal rendering of `n` (Python `str(n)`). -/
def toDecimal (n : Nat) : List Char := toDecimalAux (n + 1) n []

/-- Numeric value of a digit string (Python `int` on a digit string;
an empty list yields 0, matching the `except ValueError: append(0)`
branch of `Updater.replace`). -/
def digitsVal (l : List Char) : Nat :=
  l.foldl (fun a c => a * 10 + (c.toNat - 48)) 0

/-- Maximal-munch digit scan: the greedy `\d+` / `\d*` of the patterns.
Returns the digit run and the remaining characters. -/
def takeWhileDigits : List Char → List Char × List Char
  | [] => ([], [])
  | c :: rest =>
    if c.isDigit then
      let p := takeWhileDigits rest
      (c :: p.1, p.2)
    else ([], c :: rest)

/-- `true` when the list does not begin with a decimal digit. -/
def noDigitHead : List Char → Bool
  | [] => true
  | c :: _ => !c.isDigit

/-- Match a literal token at the head of the input, returning the rest. -/
def dropLit : List Char → List Char → Option (List Char)
  | [], s => some s
  | _ :: _, [] => none
  | p :: ps, c :: cs => if c = p then dropLit ps cs else none

/-- Maximal munch of `[^"]*`: consume characters up to the first double
quote (or the end of input). -/
def takeNonQuote : List Char → List Char × List Char
  | [] => ([], [])
  | c :: rest =>
    if c = '"' then ([], c :: rest)
    else
      let p := takeNonQuote rest
      (c :: p.1, p.2)

/-- A required digit group `(\d+)`: fails on an empty digit run. -/
def reqDigits (s : List Char) : Option (Nat × List Char) :=
  match takeWhileDigits s with
  | ([], _) => none
  | (c :: ds, r) => some (digitsVal (c :: ds), r)

/-- The version fragment `(\d+)\.(\d+)\.(\d+)(?:\-rc)?(\d*)` of
`VER_PATTERN`, with the rc group converted as in `Updater.replace`
(absent or empty digits become 0). -/
def parseVerCore (s : List Char) : Option (VersionSpec × List Char) :=
  match reqDigits s with
  | none => none
  | some (a, s1) =>
    match dropLit ['.'] s1 with
    | none => none
    | some s2 =>
      match reqDigits s2 with
      | none => none
      | some (b, s3) =>
        match dropLit ['.'] s3 with
        | none => none
        | some s4 =>
          match reqDigits s4 with
          | none => none
          | some (c, s5) =>
            match dropLit ['-', 'r', 'c'] s5 with
            | some s6 =>
              match takeWhileDigits s6 with
              | (d4, s7) => some (⟨a, b, c, digitsVal d4⟩, s7)
            | none => some (⟨a, b, c, 0⟩, s5)

/-- `MAJOR.MINOR.PATCH` (the `".".join(...)` over the first three
components in `Updater.replace`). -/
def serializeBase (v : VersionSpec) : List Char :=
  toDecimal v.major ++ '.' :: toDecimal v.minor ++ '.' :: toDecimal v.patch

/-- The `-rcN` suffix, emitted only when `rc > 0`. -/
def rcSuffix (v : VersionSpec) : List Char :=
  if 0 < v.rc then '-' :: 'r' :: 'c' :: toDecimal v.rc else []

/-- The `new_version` string computed by `Updater.replace`. -/
def serializeVersion (v : VersionSpec) : List Char :=
  serializeBase v ++ rcSuffix v

/-- One attempted match of `VER_PATTERN`
(`^version = "(\d+)\.(\d+)\.(\d+)(?:\-rc)?(\d*)[^"]*" # auto`) at the
current position; the `^` anchoring is handled by the caller.  Returns the
captured version and the input remaining after the match. -/
def matchVer (s : List Char) : Option (VersionSpec × List Char) :=
  match dropLit ("version = \"").data s with
  | none => none
  | some s1 =>
    match parseVerCore s1 with
    | none => none
    | some (v, s2) =>
      match takeNonQuote s2 with
      | (_, s3) =>
        match dropLit ("\" # auto").data s3 with
        | none => none
        | some s4 => some (v, s4)

/-- The replacement text `VER_REPLACE % (major, minor, patch, rc_str)`
built by `Updater.replace` for the (already bumped) version. -/
def verReplace (v : VersionSpec) : List Char :=
  ("version = \"").data ++ serializeVersion v ++ ("\" # auto").data

/-- Result of scanning a document as `VER_PATTERN.sub(Updater.replace, doc)`
does: the rewritten text, the number of matches replaced, and the version
stored in `Updater.new_version` by the last replacement (`none` when no
match occurred). -/
structure ScanResult where
  out : List Char
  cnt : Nat
  lastV : Option VersionSpec

/-- The left-to-right scan of `re.sub` with the `MULTILINE` `^` anchor:
a match is attempted only at the start of the text or immediately after a
newline, and scanning resumes after each replaced match.  `fuel` bounds
the recursion; every step consumes at least one character, so an initial
fuel of the text length is exact. -/
def scanVerAux (idx : Fin 4) : Nat → Bool → List Char → ScanResult
  | 0, _, s => ⟨s, 0, none⟩
  | _ + 1, _, [] => ⟨[], 0, none⟩
  | fuel + 1, atStart, c :: rest =>
    if atStart then
      match matchVer (c :: rest) with
      | some (v, rem) =>
        let r := scanVerAux idx fuel false rem
        ⟨verReplace (v.bump idx) ++ r.out, r.cnt + 1,
          some (r.lastV.getD (v.bump idx))⟩
      | none =>
        let r := scanVerAux idx fuel (c == '\n') rest
        ⟨c :: r.out, r.cnt, r.lastV⟩
    else
      let r := scanVerAux idx fuel (c == '\n') rest
      ⟨c :: r.out, r.cnt, r.lastV⟩

/-- `VER_PATTERN.sub(Updater.replace, doc)` with the bump component
selected by `idx`. -/
def subVer (idx : Fin 4) (s : List Char) : List Char :=
  (scanVerAux idx s.length true s).out

/-- Number of `VER_PATTERN` matches replaced by the substitution
(the number of marked version lines the scan finds). -/
def countVer (idx : Fin 4) (s : List Char) : Nat :=
  (scanVerAux idx s.length true s).cnt

/-- Initial value of the class attribute `Updater.new_version`. -/
def newVersionInit : List Char := ("0.0.0").data

/-- Value of `Updater.new_version` after `VER_PATTERN.sub` has run over
the manifest text: the serialization of the last bumped match, or the
initial value when nothing matched. -/
def newVersionAfter (idx : Fin 4) (s : List Char) : List Char :=
  match (scanVerAux idx s.length true s).lastV with
  | some w => serializeVersion w
  | none => newVersionInit

/-- The default of the `tag` parameter of `get_release_notes`.  Python
evaluates a default argument once, when the `def` statement executes, so
it is bound to the value `Updater.new_version` holds at module load time,
not to the value the attribute has when the function is called. -/
def releaseNotesDefaultTag : List Char := newVersionInit

/-- The tag `main` actually passes to the changelog extraction: `main`
invokes `get_release_notes()` with no argument, so the frozen default is
used. -/
def mainNotesTag : List Char := releaseNotesDefaultTag

/-- `f"[{tag}]"`, the byte string searched for in header lines. -/
def tagBuf (tag : List Char) : List Char := '[' :: (tag ++ [']'])

/-- One attempted match of `VERSION_LOG`
(`^## \[\d+\.\d+\.\d+(?:\-rc)?\d*\]`) against the start of a line.
Returns `matched.group(0)` and `line[matched.end():]`. -/
def versionLogMatch (line : List Char) : Option (List Char × List Char) :=
  match dropLit ("## [").data line with
  | none => none
  | some s1 =>
    match takeWhileDigits s1 with
    | ([], _) => none
    | (d1, s2) =>
      match dropLit ['.'] s2 with
      | none => none
      | some s3 =>
        match takeWhileDigits s3 with
        | ([], _) => none
        | (d2, s4) =>
          match dropLit ['.'] s4 with
          | none => none
          | some s5 =>
            match takeWhileDigits s5 with
            | ([], _) => none
            | (d3, s6) =>
              let p :=
                match dropLit ['-', 'r', 'c'] s6 with
                | some t =>
                  match takeWhileDigits t with
                  | (d4, u) => ('-' :: 'r' :: 'c' :: d4, u)
                | none => (([] : List Char), s6)
              match dropLit [']'] p.2 with
              | none => none
              | some s7 =>
                some (("## [").data ++ d1 ++ '.' :: d2 ++ '.' :: d3 ++
                  p.1 ++ [']'], s7)

/-- Python `pat in s` on byte strings: does `pat` occur contiguously in
`s`? -/
def isSubSeqOf (pat : List Char) : List Char → Bool
  | [] => pat.isEmpty
  | c :: rest => pat.isPrefixOf (c :: rest) || isSubSeqOf pat rest

/-- Python `bytes.replace(pat, rep, 1)`: replace the first occurrence of
`pat` (non-empty in all uses here). -/
def replaceOnce (pat rep : List Char) : List Char → List Char
  | [] => []
  | c :: rest =>
    if pat.isPrefixOf (c :: rest) then rep ++ (c :: rest).drop pat.length
    else c :: replaceOnce pat rep rest

/-- The mutable state of the line loop in `get_release_notes`:
the `title` string, the `buf` accumulator and the `found_notes` flag. -/
structure NotesState where
  title : List Char
  buf : List Char
  found : Bool

/-- The body of the `for line in log.readlines()` loop of
`get_release_notes`, one line at a time. -/
def notesStep (tag : List Char) (st : NotesState) (line : List Char) : NotesState :=
  match versionLogMatch line with
  | some (g0, rest) =>
    if isSubSeqOf (tagBuf tag) g0 then ⟨tag ++ rest, st.buf, true⟩
    else ⟨st.title, st.buf, false⟩
  | none =>
    if ("[unreleased]: ").data.isPrefixOf line && st.found then
      ⟨st.title, st.buf, false⟩
    else if st.found then ⟨st.title, st.buf ++ line, true⟩
    else if (tagBuf tag ++ (": ").data).isPrefixOf line then
      ⟨st.title, st.buf ++ replaceOnce (tagBuf tag) (("Full commit diff").data) line,
        false⟩
    else st

/-- `true` on whitespace characters stripped by Python `strip`/`rstrip`. -/
def isSpaceChar (c : Char) : Bool :=
  c = ' ' || c = '\t' || c = '\n' || c = '\r' || c = '\x0b' || c = '\x0c'

/-- Python `rstrip()`: drop trailing whitespace. -/
def rstripChars (s : List Char) : List Char :=
  (s.reverse.dropWhile isSpaceChar).reverse

/-- Python `strip()`: drop leading and trailing whitespace. -/
def stripChars (s : List Char) : List Char :=
  rstripChars (s.dropWhile isSpaceChar)

/-- `get_release_notes(tag)` over the changelog given as the list of its
lines (each line carrying its trailing newline, as `readlines` yields
them): fold the loop body over the lines, then return
`(title.rstrip(), buf.strip())`. -/
def getReleaseNotes (tag : List Char) (lines : List (List Char)) :
    List Char × List Char :=
  let st := lines.foldl (notesStep tag) ⟨[], [], false⟩
  (rstripChars st.title, stripChars st.buf)

/-- Concatenation of a list of lines. -/
def joinAll : List (List Char) → List Char
  | [] => []
  | l :: ls => l ++ joinAll ls

/-- Does the line match `VERSION_LOG` (is it a release-header line)? -/
def isHeaderB (l : List Char) : Bool := (versionLogMatch l).isSome

/-- Is the line a release-header line whose `group(0)` contains
`f"[{tag}]"` (the branch entering the target block)? -/
def isTargetB (tag l : List Char) : Bool :=
  match versionLogMatch l with
  | some (g0, _) => isSubSeqOf (tagBuf tag) g0
  | none => false

/-- Does the line start with `b"[unreleased]: "`? -/
def isUnrelB (l : List Char) : Bool := ("[unreleased]: ").data.isPrefixOf l

/-- Does the line start with `tag_buf + b": "` (a diff-reference line for
the tag)? -/
def isDiffRefB (tag l : List Char) : Bool :=
  (tagBuf tag ++ (": ").data).isPrefixOf l

/-- The external commands `main` runs, in program order; the manifest
patch and the note extraction are internal pure steps and cannot fail. -/
inductive Step
  | cargoUpdate
  | yarnVersion
  | napiVersion
  | gitCliff
  | gitAdd
  | gitCommit
  | gitPush
  | ghRelease
deriving DecidableEq

/-- How a failing step surfaces: an uncaught `CalledProcessError` from
`subprocess.run(check=True)`, except for the push step, whose failure is
re-raised as the dedicated `RuntimeError("Failed to push commit for
version bump")`. -/
inductive PipelineError
  | toolFailure : Step → PipelineError
  | pushFailure : PipelineError
deriving DecidableEq

/-- The order in which `main` invokes the external commands. -/
def pipelineSteps : List Step :=
  [.cargoUpdate, .yarnVersion, .napiVersion, .gitCliff, .gitAdd,
    .gitCommit, .gitPush, .ghRelease]

/-- The error raised when a given step fails. -/
def stepError (s : Step) : PipelineError :=
  match s with
  | .gitPush => .pushFailure
  | s => .toolFailure s

/-- Run the remaining steps given the outcome `fails` of each external
command: returns the list of completed steps and the error that halted
the run, if any.  A failure halts immediately; completed steps are never
undone. -/
def runSteps (fails : Step → Bool) : List Step → List Step → List Step × Option PipelineError
  | done, [] => (done, none)
  | done, s :: rest =>
    if fails s then (done, some (stepError s))
    else runSteps fails (done ++ [s]) rest

/-- The whole external-command sequence of `main`. -/
def runPipeline (fails : Step → Bool) : List Step × Option PipelineError :=
  runSteps fails [] pipelineSteps

/-- A one-line manifest with a single marked version line. -/
def sampleManifest : List Char := ("version = \"1.2.3\" # auto\n").data

/-- A manifest text with no marked version line. -/
def noMarkDoc : List Char := ("[package]\nname = \"cpp-linter\"\n").data

/-- A manifest text with two marked version lines. -/
def twoMarkDoc : List Char :=
  ("version = \"1.2.3\" # auto\nversion = \"0.1.0\" # auto\n").data

/-- `twoMarkDoc` after a `patch` bump of both marked lines. -/
def twoMarkDocBumped : List Char :=
  ("version = \"1.2.4\" # auto\nversion = \"0.1.1\" # auto\n").data

/-- A manifest with one marked line surrounded by other content,
including an unmarked version-shaped string. -/
def frameDoc : List Char :=
  ("[package]\nversion = \"1.2.3\" # auto\ntag = \"9.9.9\"\n").data

/-- The changelog of the specification example: target block, then an
`## [unreleased]` section header, then the reference line. -/
def specExampleLog : List (List Char) :=
  [("## [1.0.0] foo\n").data,
   ("- a change\n").data,
   ("## [unreleased]\n").data,
   ("[1.0.0]: https://x/compare/a..b").data]

/-- The specification example with the unreleased boundary written as the
`[unreleased]: ` reference line the scanner actually recognises. -/
def fixedExampleLog : List (List Char) :=
  [("## [1.0.0] foo\n").data,
   ("- a change\n").data,
   ("[unreleased]: https://x/compare/v1.0.0...HEAD\n").data,
   ("[1.0.0]: https://x/compare/a..b").data]

/-- A changelog holding only a diff-reference line for the tag, with no
header block for it. -/
def refOnlyLog : List (List Char) :=
  [("[1.0.0]: https://x\n").data]

/-- An outcome assignment where only the push command fails. -/
def pushOnlyFails (s : Step) : Bool := decide (s = Step.gitPush)

/-! ## Lemmas about the changelog scanner -/

/-- A line that neither enters the target block nor is a diff-reference
line for the tag leaves a searching (`found_notes = False`) state
untouched. -/
theorem notesStep_false_inert (tag t b l : List Char)
    (ht : isTargetB tag l = false) (hd : isDiffRefB tag l = false) :
    notesStep tag ⟨t, b, false⟩ l = ⟨t, b, false⟩ := by
  unfold isTargetB at ht
  unfold isDiffRefB at hd
  unfold notesStep
  cases hm : versionLogMatch l with
  | some p =>
    obtain ⟨g0, rest⟩ := p
    rw [hm] at ht
    simp at ht
    simp [ht]
  | none =>
    simp [hd]

/-- Folding the loop body over lines that are all inert keeps a searching
state unchanged. -/
theorem foldl_false_inert (tag : List Char) :
    ∀ (ls : List (List Char)) (t b : List Char),
      (∀ l ∈ ls, isTargetB tag l = false ∧ isDiffRefB tag l = false) →
      ls.foldl (notesStep tag) ⟨t, b, false⟩ = ⟨t, b, false⟩ := by
  intro ls
  induction ls with
  | nil => intro t b _; rfl
  | cons l ls ih =>
    intro t b hl
    have h0 := hl l (by simp)
    rw [List.foldl_cons, notesStep_false_inert tag t b l h0.1 h0.2]
    exact ih t b fun x hx => hl x (by simp [hx])

/-- While inside the target block, a line that is neither a release
header nor an `[unreleased]: ` reference line is appended verbatim to the
buffer. -/
theorem notesStep_true_append (tag t b l : List Char)
    (hh : isHeaderB l = false) (hu : isUnrelB l = false) :
    notesStep tag ⟨t, b, true⟩ l = ⟨t, b ++ l, true⟩ := by
  unfold isHeaderB at hh
  unfold isUnrelB at hu
  unfold notesStep
  cases hm : versionLogMatch l with
  | some p => rw [hm] at hh; simp at hh
  | none => simp [hu]

/-- Folding the loop body over in-block body lines appends their
concatenation to the buffer. -/
theorem foldl_true_append (tag : List Char) :
    ∀ (ls : List (List Char)) (t b : List Char),
      (∀ l ∈ ls, isHeaderB l = false ∧ isUnrelB l = false) →
      ls.foldl (notesStep tag) ⟨t, b, true⟩ = ⟨t, b ++ joinAll ls, true⟩ := by
  intro ls
  induction ls with
  | nil => intro t b _; simp [joinAll]
  | cons l ls ih =>
    intro t b hl
    have h0 := hl l (by simp)
    rw [List.foldl_cons, notesStep_true_append tag t b l h0.1 h0.2,
      ih t (b ++ l) fun x hx => hl x (by simp [hx])]
    simp [joinAll]

/-- A header line for the target tag sets the title from the text after
the matched header token and raises the `found_notes` flag. -/
theorem notesStep_target (tag t b l g0 rest : List Char) (f : Bool)
    (hm : versionLogMatch l = some (g0, rest))
    (hi : isSubSeqOf (tagBuf tag) g0 = true) :
    notesStep tag ⟨t, b, f⟩ l = ⟨tag ++ rest, b, true⟩ := by
  unfold notesStep
  rw [hm]
  simp [hi]

/-- A boundary line — a release header for a different tag, or an
`[unreleased]: ` reference line — closes the target block. -/
theorem notesStep_boundary (tag t b l : List Char)
    (hb : (isHeaderB l = true ∧ isTargetB tag l = false) ∨
      (isHeaderB l = false ∧ isUnrelB l = true)) :
    notesStep tag ⟨t, b, true⟩ l = ⟨t, b, false⟩ := by
  unfold notesStep
  rcases hb with ⟨hh, ht⟩ | ⟨hh, hu⟩
  · unfold isHeaderB at hh
    unfold isTargetB at ht
    cases hm : versionLogMatch l with
    | some p =>
      obtain ⟨g0, rest⟩ := p
      rw [hm] at ht
      simp at ht
      simp [ht]
    | none => rw [hm] at hh; simp at hh
  · unfold isHeaderB at hh
    unfold isUnrelB at hu
    cases hm : versionLogMatch l with
    | some p => rw [hm] at hh; simp at hh
    | none => simp [hu]

/-- C6: for a changelog decomposing into inert lines, the target header,
body lines, the first boundary (a different release header or an
`[unreleased]: ` reference line — the latter closes the block even when it
directly follows it) and inert lines, the extracted title is the tag
followed by the text after the header token (right-trimmed), and the body
is exactly the concatenation of the non-header lines between the target
header and the boundary (whitespace-stripped at both ends); nothing after
the boundary reaches the body. -/
theorem notes_block_extraction (tag g0 afterH h bnd : List Char)
    (pre mid post : List (List Char))
    (hm : versionLogMatch h = some (g0, afterH))
    (hi : isSubSeqOf (tagBuf tag) g0 = true)
    (hpre : ∀ l ∈ pre, isTargetB tag l = false ∧ isDiffRefB tag l = false)
    (hmid : ∀ l ∈ mid, isHeaderB l = false ∧ isUnrelB l = false)
    (hbnd : (isHeaderB bnd = true ∧ isTargetB tag bnd = false) ∨
      (isHeaderB bnd = false ∧ isUnrelB bnd = true))
    (hpost : ∀ l ∈ post, isTargetB tag l = false ∧ isDiffRefB tag l = false) :
    getReleaseNotes tag (pre ++ h :: (mid ++ bnd :: post)) =
      (rstripChars (tag ++ afterH), stripChars (joinAll mid)) := by
  unfold getReleaseNotes
  rw [List.foldl_append, foldl_false_inert tag pre [] [] hpre, List.foldl_cons,
    notesStep_target tag [] [] h g0 afterH false hm hi, List.foldl_append,
    foldl_true_append tag mid (tag ++ afterH) [] hmid, List.foldl_cons,
    notesStep_boundary tag (tag ++ afterH) ([] ++ joinAll mid) bnd hbnd,
    foldl_false_inert tag post (tag ++ afterH) ([] ++ joinAll mid) hpost]
  simp

/-- C6 witness: a concrete changelog with a preamble line, the `1.0.0`
header, one body line, the `[unreleased]: ` boundary directly after the
block, and a trailing reference line for another tag. -/
theorem notes_block_extraction_witness :
    versionLogMatch (("## [1.0.0] - 2024-01-01\n").data) =
      some (("## [1.0.0]").data, (" - 2024-01-01\n").data) ∧
    getReleaseNotes (("1.0.0").data)
      ([("# Changelog\n").data] ++ ("## [1.0.0] - 2024-01-01\n").data ::
        ([("- fixed a bug\n").data] ++ ("[unreleased]: https://u\n").data ::
          [("[0.9.0]: https://o\n").data])) =
      (rstripChars (("1.0.0").data ++ (" - 2024-01-01\n").data),
        stripChars (joinAll [("- fixed a bug\n").data])) := by
  refine ⟨by decide, ?_⟩
  exact notes_block_extraction (("1.0.0").data) (("## [1.0.0]").data)
    ((" - 2024-01-01\n").data) (("## [1.0.0] - 2024-01-01\n").data)
    (("[unreleased]: https://u\n").data) [("# Changelog\n").data]
    [("- fixed a bug\n").data] [("[0.9.0]: https://o\n").data]
    (by decide) (by decide) (by decide) (by decide) (Or.inr (by decide))
    (by decide)

/-- C10: a diff-reference line for the target tag that is scanned while
the target block is still open (no boundary was seen since the target
header) is appended to the body verbatim by the `found_notes` branch; the
label-rewriting branch is never reached, so no `Full commit diff`
rewriting happens to it. -/
theorem diff_ref_inside_block_verbatim (tag g0 afterH h dline : List Char)
    (pre mid post : List (List Char))
    (hm : versionLogMatch h = some (g0, afterH))
    (hi : isSubSeqOf (tagBuf tag) g0 = true)
    (hpre : ∀ l ∈ pre, isTargetB tag l = false ∧ isDiffRefB tag l = false)
    (hmid : ∀ l ∈ mid, isHeaderB l = false ∧ isUnrelB l = false)
    (_hd1 : isDiffRefB tag dline = true)
    (hd2 : isHeaderB dline = false)
    (hd3 : isUnrelB dline = false)
    (hpost : ∀ l ∈ post, isHeaderB l = false ∧ isUnrelB l = false) :
    getReleaseNotes tag (pre ++ h :: (mid ++ dline :: post)) =
      (rstripChars (tag ++ afterH),
        stripChars (joinAll mid ++ (dline ++ joinAll post))) := by
  unfold getReleaseNotes
  rw [List.foldl_append, foldl_false_inert tag pre [] [] hpre, List.foldl_cons,
    notesStep_target tag [] [] h g0 afterH false hm hi, List.foldl_append,
    foldl_true_append tag mid (tag ++ afterH) [] hmid, List.foldl_cons,
    notesStep_true_append tag (tag ++ afterH) ([] ++ joinAll mid) dline hd2 hd3,
    foldl_true_append tag post (tag ++ afterH) (([] ++ joinAll mid) ++ dline) hpost]
  simp

/-- C10 witness: the diff-reference line `[1.0.0]: https://x` sits right
below the open `1.0.0` block; it lands in the body verbatim. -/
theorem diff_ref_inside_block_verbatim_witness :
    isDiffRefB (("1.0.0").data) (("[1.0.0]: https://x\n").data) = true ∧
    getReleaseNotes (("1.0.0").data)
      ([] ++ ("## [1.0.0] foo\n").data ::
        ([("- a change\n").data] ++ ("[1.0.0]: https://x\n").data :: [])) =
      (rstripChars (("1.0.0").data ++ (" foo\n").data),
        stripChars (joinAll [("- a change\n").data] ++
          ((("[1.0.0]: https://x\n").data) ++ joinAll []))) := by
  refine ⟨by decide, ?_⟩
  exact diff_ref_inside_block_verbatim (("1.0.0").data) (("## [1.0.0]").data)
    ((" foo\n").data) (("## [1.0.0] foo\n").data) (("[1.0.0]: https://x\n").data)
    [] [("- a change\n").data] [] (by decide) (by decide) (by decide)
    (by decide) (by decide) (by decide) (by decide) (by decide)

/-- C8 counterexample: a changelog with no header line for tag `1.0.0`
but with the diff-reference line `[1.0.0]: https://x` yields an empty
title together with a NON-empty body (the rewritten reference line), so
the claim "empty title and empty body for every changelog without a
target header" fails on this input. -/
theorem no_header_counterexample :
    getReleaseNotes (("1.0.0").data) refOnlyLog =
      ([], ("Full commit diff: https://x").data) ∧
    (getReleaseNotes (("1.0.0").data) refOnlyLog).2 ≠ [] := by
  constructor
  · decide
  · decide

/-- C8 amended: a changelog containing no header line for the target tag
and also no diff-reference line keyed by the tag yields an empty title
and an empty body; the extraction is a total function, so no error is
raised. -/
theorem no_header_empty_notes (tag : List Char) (lines : List (List Char))
    (hl : ∀ l ∈ lines, isTargetB tag l = false ∧ isDiffRefB tag l = false) :
    getReleaseNotes tag lines = ([], []) := by
  unfold getReleaseNotes
  rw [foldl_false_inert tag lines [] [] hl]
  rfl

/-- C8 witness: a changelog holding an unreleased section and a foreign
release block, none of which mentions tag `9.9.9`. -/
theorem no_header_empty_notes_witness :
    (∀ l ∈ [("## [unreleased]\n").data, ("- pending\n").data,
        ("## [1.0.0] foo\n").data, ("[unreleased]: https://u\n").data,
        ("[1.0.0]: https://x\n").data],
      isTargetB (("9.9.9").data) l = false ∧
        isDiffRefB (("9.9.9").data) l = false) ∧
    getReleaseNotes (("9.9.9").data)
      [("## [unreleased]\n").data, ("- pending\n").data,
        ("## [1.0.0] foo\n").data, ("[unreleased]: https://u\n").data,
        ("[1.0.0]: https://x\n").data] = ([], []) := by
  refine ⟨by decide, ?_⟩
  exact no_header_empty_notes (("9.9.9").data) _ (by decide)

/-- C7 counterexample: on the specification's own example — target block,
then an `## [unreleased]` section header, then the reference line — the
scanner never rewrites the reference: the body keeps the raw
`[1.0.0]: https://x/compare/a..b` line, contains no `Full commit diff`
text, and even absorbs the `## [unreleased]` header line. -/
theorem diff_rewrite_counterexample :
    getReleaseNotes (("1.0.0").data) specExampleLog =
      (("1.0.0 foo").data,
        ("- a change\n## [unreleased]\n[1.0.0]: https://x/compare/a..b").data) ∧
    isSubSeqOf (("Full commit diff").data)
      (getReleaseNotes (("1.0.0").data) specExampleLog).2 = false ∧
    isSubSeqOf (("## [unreleased]").data)
      (getReleaseNotes (("1.0.0").data) specExampleLog).2 = true := by
  refine ⟨by decide, by decide, by decide⟩

/-- C7 amended: the diff-reference rewrite happens when the line is
scanned while outside the target block; with the unreleased boundary
written as the `[unreleased]: ` reference line that the scanner
recognises, extracting `1.0.0` gives title `1.0.0 foo` and a body made of
the block's lines plus `Full commit diff: https://x/compare/a..b`, the
URL preserved unchanged. -/
theorem diff_rewrite_outside_block :
    getReleaseNotes (("1.0.0").data) fixedExampleLog =
      (("1.0.0 foo").data,
        ("- a change\nFull commit diff: https://x/compare/a..b").data) := by
  decide

/-! ## Version bump, stale default tag, and pipeline -/

/-- C2: the bump increments the component at the target priority
position, zeroes every component of lower priority (higher index), and
leaves every component of higher priority (lower index) unchanged; in
particular any bump other than `rc` clears `rc` to 0, and an `rc` bump
touches no other component. -/
theorem bump_cascading_reset (v : VersionSpec) (idx j : Fin 4) :
    (v.bump idx).comp idx = v.comp idx + 1 ∧
    (idx < j → (v.bump idx).comp j = 0) ∧
    (j < idx → (v.bump idx).comp j = v.comp j) ∧
    (idx ≠ 3 → (v.bump idx).rc = 0) ∧
    (j ≠ 3 → (v.bump 3).comp j = v.comp j) := by
  fin_cases idx <;> fin_cases j <;>
    simp [VersionSpec.bump, VersionSpec.comp]

/-- C2 witness: bumping `minor` of 1.2.3-rc4 zeroes the patch component. -/
theorem bump_cascading_reset_witness :
    ((1 : Fin 4) < 2) ∧
    (VersionSpec.bump ⟨1, 2, 3, 4⟩ 1).comp 2 = 0 := by
  exact ⟨by decide, (bump_cascading_reset ⟨1, 2, 3, 4⟩ 1 2).2.1 (by decide)⟩

/-- C1: the tag `main` hands to the changelog extraction is the default
parameter of `get_release_notes`, which Python froze at definition time
to the initial `Updater.new_version` value `0.0.0`; after patching the
sample manifest the freshly bumped version is `1.2.4`, so the lookup key
differs from the new version produced by the manifest patch. -/
theorem release_lookup_tag_is_stale :
    mainNotesTag = ("0.0.0").data ∧
    newVersionAfter 2 sampleManifest = ("1.2.4").data ∧
    mainNotesTag ≠ newVersionAfter 2 sampleManifest := by
  refine ⟨by decide, by decide, by decide⟩

/-- C9: when every external command up to and including the commit
succeeds and the push fails, the pipeline halts with exactly the commands
through `git commit` completed (none of them undone), raises the
push-specific error — distinct from every generic tool failure — and
never attempts the release-publication step. -/
theorem push_failure_halts_committed (fails : Step → Bool)
    (hpre : ∀ s, s ≠ Step.gitPush → fails s = false)
    (hpush : fails Step.gitPush = true) :
    runPipeline fails =
      ([.cargoUpdate, .yarnVersion, .napiVersion, .gitCliff, .gitAdd,
        .gitCommit], some PipelineError.pushFailure) ∧
    Step.gitCommit ∈ (runPipeline fails).1 ∧
    Step.ghRelease ∉ (runPipeline fails).1 ∧
    (∀ s, PipelineError.pushFailure ≠ PipelineError.toolFailure s) := by
  have h1 : fails .cargoUpdate = false := hpre _ (by decide)
  have h2 : fails .yarnVersion = false := hpre _ (by decide)
  have h3 : fails .napiVersion = false := hpre _ (by decide)
  have h4 : fails .gitCliff = false := hpre _ (by decide)
  have h5 : fails .gitAdd = false := hpre _ (by decide)
  have h6 : fails .gitCommit = false := hpre _ (by decide)
  have hmain : runPipeline fails =
      ([.cargoUpdate, .yarnVersion, .napiVersion, .gitCliff, .gitAdd,
        .gitCommit], some PipelineError.pushFailure) := by
    simp [runPipeline, pipelineSteps, runSteps, h1, h2, h3, h4, h5, h6,
      hpush, stepError]
  refine ⟨hmain, ?_, ?_, ?_⟩
  · rw [hmain]; decide
  · rw [hmain]; decide
  · intro s h; exact PipelineError.noConfusion h

/-- C9 witness: the outcome assignment where only the push fails. -/
theorem push_failure_halts_committed_witness :
    (∀ s, s ≠ Step.gitPush → pushOnlyFails s = false) ∧
    pushOnlyFails Step.gitPush = true ∧
    runPipeline pushOnlyFails =
      ([.cargoUpdate, .yarnVersion, .napiVersion, .gitCliff, .gitAdd,
        .gitCommit], some PipelineError.pushFailure) := by
  have h1 : ∀ s, s ≠ Step.gitPush → pushOnlyFails s = false := by
    intro s hs
    cases s <;> simp_all [pushOnlyFails]
  exact ⟨h1, by decide,
    (push_failure_halts_committed pushOnlyFails h1 (by decide)).1⟩

/-! ## Decimal rendering and parsing -/

/-- The code point of a decimal digit character round-trips. -/
theorem charVal_digit (d : Nat) (hd : d < 10) :
    (Char.ofNat (48 + d)).toNat = 48 + d := by
  interval_cases d <;> decide

/-- Characters produced for decimal digits satisfy `isDigit`. -/
theorem charDigit_isDigit (d : Nat) (hd : d < 10) :
    (Char.ofNat (48 + d)).isDigit = true := by
  interval_cases d <;> decide

/-- With enough fuel, the decimal renderer produces the base-10 digits of
`n`, most significant first, in front of the accumulator. -/
theorem toDecimalAux_eq (fuel : Nat) :
    ∀ n acc, 0 < n → n < fuel →
      toDecimalAux fuel n acc =
        ((Nat.digits 10 n).reverse.map fun d => Char.ofNat (48 + d)) ++ acc := by
  induction fuel with
  | zero => intro n acc h1 h2; omega
  | succ fuel ih =>
    intro n acc h1 h2
    by_cases h10 : n < 10
    · simp only [toDecimalAux, if_pos h10]
      rw [Nat.digits_def' (by norm_num : (1 : ℕ) < 10) h1,
        Nat.div_eq_of_lt h10, Nat.digits_zero, Nat.mod_eq_of_lt h10]
      simp
    · have h1' : 0 < n / 10 := Nat.div_pos (le_of_not_lt h10) (by norm_num)
      have h2' : n / 10 < fuel :=
        lt_of_lt_of_le (Nat.div_lt_self h1 (by norm_num)) (Nat.lt_succ_iff.mp h2)
      simp only [toDecimalAux, if_neg h10]
      rw [ih (n / 10) _ h1' h2',
        Nat.digits_def' (by norm_num : (1 : ℕ) < 10) h1]
      simp

/-- `toDecimal` of a positive number is its digit string. -/
theorem toDecimal_eq_digits (n : Nat) (h : 0 < n) :
    toDecimal n =
      (Nat.digits 10 n).reverse.map fun d => Char.ofNat (48 + d) := by
  unfold toDecimal
  rw [toDecimalAux_eq (n + 1) n [] h (by omega)]
  simp

/-- Every character of a rendered decimal is a digit. -/
theorem toDecimal_all_digits (n : Nat) : ∀ c ∈ toDecimal n, c.isDigit = true := by
  rcases Nat.eq_zero_or_pos n with rfl | h
  · intro c hc
    have : c = '0' := by simpa [toDecimal, toDecimalAux] using hc
    subst this
    decide
  · rw [toDecimal_eq_digits n h]
    intro c hc
    rw [List.mem_map] at hc
    obtain ⟨d, hd, rfl⟩ := hc
    exact charDigit_isDigit d
      (Nat.digits_lt_base (by norm_num) (List.mem_reverse.mp hd))

/-- A rendered decimal is never empty. -/
theorem toDecimal_ne_nil (n : Nat) : toDecimal n ≠ [] := by
  rcases Nat.eq_zero_or_pos n with rfl | h
  · decide
  · rw [toDecimal_eq_digits n h]
    simp [Nat.digits_ne_nil_iff_ne_zero, Nat.pos_iff_ne_zero.mp h]

/-- `noDigitHead` on a cons unfolds to the head test. -/
theorem noDigitHead_cons (c : Char) (rest : List Char) :
    noDigitHead (c :: rest) = !c.isDigit := rfl

/-- The greedy digit scan splits a digit run followed by a non-digit
boundary exactly at the boundary. -/
theorem takeWhileDigits_split (ds rest : List Char)
    (hds : ∀ c ∈ ds, c.isDigit = true) (hrest : noDigitHead rest = true) :
    takeWhileDigits (ds ++ rest) = (ds, rest) := by
  induction ds with
  | nil =>
    cases rest with
    | nil => rfl
    | cons c r =>
      rw [noDigitHead_cons] at hrest
      simp only [List.nil_append, takeWhileDigits]
      simp at hrest
      simp [hrest]
  | cons c ds ih =>
    have hc : c.isDigit = true := hds c (by simp)
    have ih' := ih fun x hx => hds x (by simp [hx])
    simp only [List.cons_append, takeWhileDigits, hc, if_pos,
      List.append_eq, ih']

/-- Digit characters fold to the same value as the underlying digits. -/
theorem foldl_map_digitChar (l : List Nat) :
    ∀ a : Nat, (∀ d ∈ l, d < 10) →
      List.foldl (fun a c => a * 10 + (c.toNat - 48)) a
        (l.map fun d => Char.ofNat (48 + d)) =
      List.foldl (fun a d => a * 10 + d) a l := by
  induction l with
  | nil => intro a _; rfl
  | cons d t ih =>
    intro a hl
    have hd : d < 10 := hl d (by simp)
    simp only [List.map_cons, List.foldl_cons, charVal_digit d hd,
      Nat.add_sub_cancel_left]
    exact ih _ fun x hx => hl x (by simp [hx])

/-- Folding most-significant-first digits computes the number they denote. -/
theorem foldl_reverse_ofDigits (l : List Nat) :
    ∀ a : Nat,
      List.foldl (fun a d => a * 10 + d) a l.reverse =
        a * 10 ^ l.length + Nat.ofDigits 10 l := by
  induction l with
  | nil => intro a; simp
  | cons d t ih =>
    intro a
    rw [List.reverse_cons, List.foldl_append, ih a]
    simp only [List.foldl_cons, List.foldl_nil, List.length_cons,
      Nat.ofDigits_cons]
    ring

/-- Parsing back a rendered decimal recovers the number. -/
theorem digitsVal_toDecimal (n : Nat) : digitsVal (toDecimal n) = n := by
  rcases Nat.eq_zero_or_pos n with rfl | h
  · decide
  · unfold digitsVal
    rw [toDecimal_eq_digits n h,
      foldl_map_digitChar (Nat.digits 10 n).reverse 0
        (fun d hd => Nat.digits_lt_base (by norm_num) (List.mem_reverse.mp hd)),
      foldl_reverse_ofDigits (Nat.digits 10 n) 0]
    simp [Nat.ofDigits_digits]

/-- A required digit group consumes exactly a rendered decimal when a
non-digit boundary follows. -/
theorem reqDigits_decimal (n : Nat) (rest : List Char)
    (hrest : noDigitHead rest = true) :
    reqDigits (toDecimal n ++ rest) = some (n, rest) := by
  have h := takeWhileDigits_split (toDecimal n) rest (toDecimal_all_digits n) hrest
  obtain ⟨c, ds, hcd⟩ := List.exists_cons_of_ne_nil (toDecimal_ne_nil n)
  unfold reqDigits
  rw [h, hcd]
  simp only []
  rw [← hcd, digitsVal_toDecimal]

/-- A literal token is consumed from the front of a concatenation. -/
theorem dropLit_self (p s : List Char) : dropLit p (p ++ s) = some s := by
  induction p with
  | nil => rfl
  | cons c ps ih => simp [dropLit, ih]

/-- C3: serializing any `VersionSpec` yields `MAJOR.MINOR.PATCH` with the
`-rcN` suffix present exactly when `rc > 0` (witnessed by the `-`
character, which can come from nowhere else), and parsing the serialized
form with the version fragment of `VER_PATTERN` recovers the identical
`VersionSpec` with no input left over — so serialize→parse→serialize is
round-trip stable. -/
theorem serialize_parse_roundtrip (v : VersionSpec) :
    parseVerCore (serializeVersion v) = some (v, []) ∧
    ('-' ∈ serializeVersion v ↔ 0 < v.rc) := by
  obtain ⟨A, B, C, R⟩ := v
  have hdot : ∀ X : List Char, noDigitHead ('.' :: X) = true := fun X => by
    rw [noDigitHead_cons]; decide
  have hdash : ∀ X : List Char, noDigitHead ('-' :: X) = true := fun X => by
    rw [noDigitHead_cons]; decide
  have hdrop : ∀ X : List Char, dropLit ['.'] ('.' :: X) = some X := fun X => by
    simpa using dropLit_self ['.'] X
  have hnd : ∀ x : Nat, ('-' : Char) ∉ toDecimal x := by
    intro x hx
    have := toDecimal_all_digits x '-' hx
    exact absurd this (by decide)
  constructor
  · by_cases hrc : 0 < R
    · have hs : serializeVersion ⟨A, B, C, R⟩ =
          toDecimal A ++ ('.' :: (toDecimal B ++ ('.' :: (toDecimal C ++
            ('-' :: 'r' :: 'c' :: toDecimal R))))) := by
        simp [serializeVersion, serializeBase, rcSuffix, hrc]
      have e4 : dropLit ['-', 'r', 'c'] ('-' :: 'r' :: 'c' :: toDecimal R) =
          some (toDecimal R) := by
        simpa using dropLit_self ['-', 'r', 'c'] (toDecimal R)
      have e5 : takeWhileDigits (toDecimal R) = (toDecimal R, []) := by
        simpa using
          takeWhileDigits_split (toDecimal R) [] (toDecimal_all_digits R) rfl
      rw [hs]
      simp only [parseVerCore, reqDigits_decimal A _ (hdot _), hdrop,
        reqDigits_decimal B _ (hdot _), reqDigits_decimal C _ (hdash _),
        e4, e5, digitsVal_toDecimal]
    · have hR : R = 0 := by omega
      subst hR
      have hs : serializeVersion ⟨A, B, C, 0⟩ =
          toDecimal A ++ ('.' :: (toDecimal B ++ ('.' :: toDecimal C))) := by
        simp [serializeVersion, serializeBase, rcSuffix]
      have e3 : reqDigits (toDecimal C) = some (C, []) := by
        simpa using reqDigits_decimal C [] rfl
      have e6 : dropLit ['-', 'r', 'c'] ([] : List Char) = none := rfl
      rw [hs]
      simp only [parseVerCore, reqDigits_decimal A _ (hdot _), hdrop,
        reqDigits_decimal B _ (hdot _), e3, e6]
  · have hbase : ('-' : Char) ∉ serializeBase ⟨A, B, C, R⟩ := by
      simp only [serializeBase, List.mem_append, List.mem_cons]
      push_neg
      exact ⟨⟨hnd A, by decide, hnd B⟩, by decide, hnd C⟩
    unfold serializeVersion
    rw [List.mem_append]
    by_cases hrc : 0 < R
    · simp [rcSuffix, hrc]
    · simp [rcSuffix, hrc, hbase]

/-! ## Decomposition lemmas for the manifest matcher -/

/-- A successful literal match splits the input at the literal. -/
theorem dropLit_decompose (p : List Char) :
    ∀ s r, dropLit p s = some r → s = p ++ r := by
  induction p with
  | nil =>
    intro s r h
    simp only [dropLit, Option.some.injEq] at h
    simp [h]
  | cons c ps ih =>
    intro s r h
    cases s with
    | nil => exact absurd h (by simp [dropLit])
    | cons x xs =>
      simp only [dropLit] at h
      by_cases hx : x = c
      · rw [if_pos hx] at h
        rw [hx, List.cons_append]
        rw [ih xs r h]
      · rw [if_neg hx] at h
        exact absurd h (by simp)

/-- The digit scan splits its input. -/
theorem takeWhileDigits_decompose :
    ∀ s : List Char, s = (takeWhileDigits s).1 ++ (takeWhileDigits s).2 := by
  intro s
  induction s with
  | nil => rfl
  | cons c rest ih =>
    simp only [takeWhileDigits]
    by_cases hc : c.isDigit
    · simp only [hc, if_pos]
      exact congrArg (c :: ·) ih
    · simp [hc]

/-- The `[^"]*` scan splits its input. -/
theorem takeNonQuote_decompose :
    ∀ s : List Char, s = (takeNonQuote s).1 ++ (takeNonQuote s).2 := by
  intro s
  induction s with
  | nil => rfl
  | cons c rest ih =>
    simp only [takeNonQuote]
    by_cases hc : c = '"'
    · simp [hc]
    · simp only [hc, if_neg, not_false_iff]
      exact congrArg (c :: ·) ih

/-- A successful required digit group splits its input. -/
theorem reqDigits_decompose (s : List Char) (a : Nat) (r : List Char)
    (h : reqDigits s = some (a, r)) : ∃ m, s = m ++ r := by
  unfold reqDigits at h
  cases hw : takeWhileDigits s with
  | mk d rest =>
    rw [hw] at h
    cases d with
    | nil => exact absurd h (by simp)
    | cons c ds =>
      simp only [Option.some.injEq, Prod.mk.injEq] at h
      refine ⟨c :: ds, ?_⟩
      have := takeWhileDigits_decompose s
      rw [hw] at this
      rw [this, h.2]

/-- A successful parse of the version fragment splits its input. -/
theorem parseVerCore_decompose (s : List Char) (v : VersionSpec) (r : List Char)
    (h : parseVerCore s = some (v, r)) : ∃ m, s = m ++ r := by
  unfold parseVerCore at h
  cases h1 : reqDigits s with
  | none => rw [h1] at h; exact absurd h (by simp)
  | some p1 =>
    obtain ⟨a, s1⟩ := p1
    rw [h1] at h
    simp only [] at h
    cases h2 : dropLit ['.'] s1 with
    | none => rw [h2] at h; exact absurd h (by simp)
    | some s2 =>
      rw [h2] at h
      simp only [] at h
      cases h3 : reqDigits s2 with
      | none => rw [h3] at h; exact absurd h (by simp)
      | some p2 =>
        obtain ⟨b, s3⟩ := p2
        rw [h3] at h
        simp only [] at h
        cases h4 : dropLit ['.'] s3 with
        | none => rw [h4] at h; exact absurd h (by simp)
        | some s4 =>
          rw [h4] at h
          simp only [] at h
          cases h5 : reqDigits s4 with
          | none => rw [h5] at h; exact absurd h (by simp)
          | some p3 =>
            obtain ⟨c, s5⟩ := p3
            rw [h5] at h
            simp only [] at h
            obtain ⟨m1, e1⟩ := reqDigits_decompose s a s1 h1
            have e2 := dropLit_decompose ['.'] s1 s2 h2
            obtain ⟨m3, e3⟩ := reqDigits_decompose s2 b s3 h3
            have e4 := dropLit_decompose ['.'] s3 s4 h4
            obtain ⟨m5, e5⟩ := reqDigits_decompose s4 c s5 h5
            cases h6 : dropLit ['-', 'r', 'c'] s5 with
            | some s6 =>
              rw [h6] at h
              simp only [] at h
              cases h7 : takeWhileDigits s6 with
              | mk d4 s7 =>
                rw [h7] at h
                simp only [Option.some.injEq, Prod.mk.injEq] at h
                have e6 := dropLit_decompose ['-', 'r', 'c'] s5 s6 h6
                have e7 := takeWhileDigits_decompose s6
                rw [h7] at e7
                refine ⟨m1 ++ ['.'] ++ m3 ++ ['.'] ++ m5 ++ ['-', 'r', 'c'] ++ d4, ?_⟩
                rw [e1, e2, e3, e4, e5, e6, e7, ← h.2]
                simp [List.append_assoc]
            | none =>
              rw [h6] at h
              simp only [Option.some.injEq, Prod.mk.injEq] at h
              refine ⟨m1 ++ ['.'] ++ m3 ++ ['.'] ++ m5, ?_⟩
              rw [e1, e2, e3, e4, e5, ← h.2]
              simp [List.append_assoc]

/-- A successful `VER_PATTERN` match splits its input at the match, and
the matched span is non-empty. -/
theorem matchVer_decompose (s : List Char) (v : VersionSpec) (rem : List Char)
    (h : matchVer s = some (v, rem)) : ∃ m, s = m ++ rem ∧ m ≠ [] := by
  unfold matchVer at h
  cases h1 : dropLit ("version = \"").data s with
  | none => rw [h1] at h; exact absurd h (by simp)
  | some s1 =>
    rw [h1] at h
    simp only [] at h
    cases h2 : parseVerCore s1 with
    | none => rw [h2] at h; exact absurd h (by simp)
    | some p =>
      obtain ⟨w, s2⟩ := p
      rw [h2] at h
      simp only [] at h
      cases h3 : takeNonQuote s2 with
      | mk g s3 =>
        rw [h3] at h
        simp only [] at h
        cases h4 : dropLit ("\" # auto").data s3 with
        | none => rw [h4] at h; exact absurd h (by simp)
        | some s4 =>
          rw [h4] at h
          simp only [Option.some.injEq, Prod.mk.injEq] at h
          have e1 := dropLit_decompose _ s s1 h1
          obtain ⟨m2, e2⟩ := parseVerCore_decompose s1 w s2 h2
          have e3 := takeNonQuote_decompose s2
          rw [h3] at e3
          have e4 := dropLit_decompose _ s3 s4 h4
          refine ⟨("version = \"").data ++ m2 ++ g ++ ("\" # auto").data, ?_, by simp⟩
          rw [e1, e2, e3, e4, ← h.2]
          simp [List.append_assoc]

/-! ## The substitution scan -/

/-- Step equation: away from a line start the scanner copies one
character. -/
theorem scanVerAux_cons_false (idx : Fin 4) (fuel : Nat) (c : Char)
    (rest : List Char) :
    scanVerAux idx (fuel + 1) false (c :: rest) =
      ⟨c :: (scanVerAux idx fuel (c == '\n') rest).out,
        (scanVerAux idx fuel (c == '\n') rest).cnt,
        (scanVerAux idx fuel (c == '\n') rest).lastV⟩ := by
  simp [scanVerAux]

/-- Step equation: at a line start with a match, the scanner emits the
replacement and resumes after the matched span. -/
theorem scanVerAux_cons_true_some (idx : Fin 4) (fuel : Nat) (c : Char)
    (rest rem : List Char) (v : VersionSpec)
    (hm : matchVer (c :: rest) = some (v, rem)) :
    scanVerAux idx (fuel + 1) true (c :: rest) =
      ⟨verReplace (v.bump idx) ++ (scanVerAux idx fuel false rem).out,
        (scanVerAux idx fuel false rem).cnt + 1,
        some ((scanVerAux idx fuel false rem).lastV.getD (v.bump idx))⟩ := by
  simp [scanVerAux, hm]

/-- Step equation: at a line start without a match, the scanner copies
one character. -/
theorem scanVerAux_cons_true_none (idx : Fin 4) (fuel : Nat) (c : Char)
    (rest : List Char) (hm : matchVer (c :: rest) = none) :
    scanVerAux idx (fuel + 1) true (c :: rest) =
      ⟨c :: (scanVerAux idx fuel (c == '\n') rest).out,
        (scanVerAux idx fuel (c == '\n') rest).cnt,
        (scanVerAux idx fuel (c == '\n') rest).lastV⟩ := by
  simp [scanVerAux, hm]

/-- When the scan finds no match, `re.sub` returns the text unchanged. -/
theorem scan_cnt_zero_out (idx : Fin 4) :
    ∀ (fuel : Nat) (b : Bool) (s : List Char), s.length ≤ fuel →
      (scanVerAux idx fuel b s).cnt = 0 → (scanVerAux idx fuel b s).out = s := by
  intro fuel
  induction fuel with
  | zero => intro b s _ _; rfl
  | succ fuel ih =>
    intro b s h hc
    cases s with
    | nil => rfl
    | cons c rest =>
      have hr : rest.length ≤ fuel := by simpa using h
      cases b with
      | false =>
        rw [scanVerAux_cons_false] at hc ⊢
        rw [ih (c == '\n') rest hr hc]
      | true =>
        cases hm : matchVer (c :: rest) with
        | some p =>
          obtain ⟨v, rem⟩ := p
          rw [scanVerAux_cons_true_some idx fuel c rest rem v hm] at hc
          simp at hc
        | none =>
          rw [scanVerAux_cons_true_none idx fuel c rest hm] at hc ⊢
          rw [ih (c == '\n') rest hr hc]

/-- When the scan finds exactly one match, the text splits into an
untouched front, the matched span, and an untouched tail, and the output
replaces exactly the matched span by the canonical replacement line. -/
theorem scan_cnt_one_decompose (idx : Fin 4) :
    ∀ (fuel : Nat) (b : Bool) (s : List Char), s.length ≤ fuel →
      (scanVerAux idx fuel b s).cnt = 1 →
      ∃ pre v m rem, s = pre ++ m ++ rem ∧
        matchVer (m ++ rem) = some (v, rem) ∧
        (scanVerAux idx fuel b s).out = pre ++ verReplace (v.bump idx) ++ rem := by
  intro fuel
  induction fuel with
  | zero =>
    intro b s _ hc
    exact absurd hc (by simp [scanVerAux])
  | succ fuel ih =>
    intro b s h hc
    cases s with
    | nil => exact absurd hc (by simp [scanVerAux])
    | cons c rest =>
      have hr : rest.length ≤ fuel := by simpa using h
      cases b with
      | false =>
        rw [scanVerAux_cons_false] at hc ⊢
        obtain ⟨pre, v, m, rem, e1, e2, e3⟩ := ih (c == '\n') rest hr hc
        refine ⟨c :: pre, v, m, rem, by simp [e1], e2, ?_⟩
        rw [e3]
        simp
      | true =>
        cases hm : matchVer (c :: rest) with
        | some p =>
          obtain ⟨v, rem⟩ := p
          rw [scanVerAux_cons_true_some idx fuel c rest rem v hm] at hc ⊢
          simp only [] at hc ⊢
          obtain ⟨m, hm1, hmne⟩ := matchVer_decompose _ _ _ hm
          have hrem : rem.length ≤ fuel := by
            have hlen := congrArg List.length hm1
            cases m with
            | nil => exact absurd rfl hmne
            | cons x xs => simp [List.length_append] at hlen; omega
          have hc0 : (scanVerAux idx fuel false rem).cnt = 0 := by omega
          refine ⟨[], v, m, rem, by simpa using hm1, by rw [← hm1]; exact hm, ?_⟩
          rw [scan_cnt_zero_out idx fuel false rem hrem hc0]
          simp
        | none =>
          rw [scanVerAux_cons_true_none idx fuel c rest hm] at hc ⊢
          obtain ⟨pre, v, m, rem, e1, e2, e3⟩ := ih (c == '\n') rest hr hc
          refine ⟨c :: pre, v, m, rem, by simp [e1], e2, ?_⟩
          rw [e3]
          simp

/-- C4 counterexample: the manifest patch is `re.sub`, a total text
transform with no failure path.  On a text with zero marked lines it
returns the text unchanged (execution then proceeds to the external
tools); on a text with two marked lines it replaces both, bumping each
marked version, instead of rejecting the input. -/
theorem patch_never_rejects_counterexample :
    countVer 2 noMarkDoc = 0 ∧
    subVer 2 noMarkDoc = noMarkDoc ∧
    countVer 2 twoMarkDoc = 2 ∧
    subVer 2 twoMarkDoc = twoMarkDocBumped ∧
    twoMarkDocBumped ≠ twoMarkDoc := by
  refine ⟨by decide, by decide, by decide, by decide, by decide⟩

/-- C4 amended: with zero marked lines the substitution returns the text
unchanged and raises no error (the pipeline continues); with several
marked lines it does not reject the input: every match is replaced, as on
the two-line document where both marked versions are bumped. -/
theorem patch_zero_and_multi_behavior :
    (∀ (idx : Fin 4) (s : List Char), countVer idx s = 0 → subVer idx s = s) ∧
    countVer 2 twoMarkDoc = 2 ∧
    subVer 2 twoMarkDoc = twoMarkDocBumped := by
  refine ⟨fun idx s h => scan_cnt_zero_out idx s.length true s (le_refl _) h,
    by decide, by decide⟩

/-- C4 amended witness: the zero-match clause applied to the concrete
unmarked document. -/
theorem patch_zero_and_multi_behavior_witness :
    countVer 2 noMarkDoc = 0 ∧ subVer 2 noMarkDoc = noMarkDoc :=
  ⟨by decide, patch_zero_and_multi_behavior.1 2 noMarkDoc (by decide)⟩

/-- C5: on a document where the scan finds exactly one marked version
line, the substitution output is the document with exactly the matched
span replaced by the canonical `version = "..." # auto` line (same
quoting and marker); every byte before and after the matched span —
including any other version-shaped string — is carried over unchanged. -/
theorem patch_unique_match_frame (idx : Fin 4) (s : List Char)
    (h : countVer idx s = 1) :
    ∃ pre v m rem, s = pre ++ m ++ rem ∧
      matchVer (m ++ rem) = some (v, rem) ∧
      subVer idx s = pre ++ verReplace (v.bump idx) ++ rem :=
  scan_cnt_one_decompose idx s.length true s (le_refl _) h

/-- C5 witness: a patch bump on a manifest with one marked line and an
unmarked version-shaped string elsewhere. -/
theorem patch_unique_match_frame_witness :
    countVer 2 frameDoc = 1 ∧
    ∃ pre v m rem, frameDoc = pre ++ m ++ rem ∧
      matchVer (m ++ rem) = some (v, rem) ∧
      subVer 2 frameDoc = pre ++ verReplace (v.bump 2) ++ rem :=
  ⟨by decide, patch_unique_match_frame 2 frameDoc (by decide)⟩
